import Mathlib

/-!
# Verification of the adventure-game engine

A shallow embedding of the Python sources `adventure.py`, `event_logger.py`
and `simulation.py`.  Python dictionaries become insertion-ordered
association lists, Python ints become `Int`, fallible lookups (which raise
`KeyError` in Python) become `Option`.  The call
`random.randint(low, high)` inside `_decrement_timer` is modelled by an
oracle: the drawn base cost is passed to the function by its caller, and a
simulation run receives the whole stream of draws as a list.
-/

namespace Adventure

/-- Python `d.get(k)` on an insertion-ordered dict represented as an
association list: the value at the first matching key, if any. -/
def dictGet {κ α : Type} [DecidableEq κ] : List (κ × α) → κ → Option α
  | [], _ => none
  | (k', v) :: rest, k => if k' = k then some v else dictGet rest k

/-- Python `d[k] = v`: overwrite the value at `k` in place if the key is
present, otherwise append the new binding at the end. -/
def dictSet {κ α : Type} [DecidableEq κ] : List (κ × α) → κ → α → List (κ × α)
  | [], k, v => [(k, v)]
  | (k', v') :: rest, k, v =>
      if k' = k then (k, v) :: rest else (k', v') :: dictSet rest k v

/-- Python `del d[k]`: drop every binding whose key is `k`. -/
def dictDel {κ α : Type} [DecidableEq κ] : List (κ × α) → κ → List (κ × α)
  | [], _ => []
  | (k', v') :: rest, k =>
      if k' = k then dictDel rest k else (k', v') :: dictDel rest k

/-- `game_entities.Item`, modelled from the spec: the class itself is not
under `src/`; its fields and their order are fixed by the constructor calls
in `AdventureGame._load_game_data` and by spec section 3. -/
structure Item where
  name : String
  description : String
  start_position : Int
  target_position : Int
  target_points : Int
  edible : Bool
  restore_value : Int
  special_effect : Option String
deriving DecidableEq, Repr

/-- `game_entities.Location`, modelled from the spec: the class itself is
not under `src/`; its fields are fixed by the constructor calls in
`AdventureGame._load_game_data` and by spec section 3.
`available_commands` maps a command string to a destination location id. -/
structure Location where
  name : String
  id_num : Int
  brief_description : String
  long_description : String
  available_commands : List (String × Int)
  items : List Item
  visited : Bool
deriving DecidableEq, Repr

/-- A requirement dictionary as consumed by `requirements_met`: the content
of its `"flags"` key (flag name, expected boolean), plus whether the dict
has any other key (e.g. `"moves_at_least"` in a rule's `when`), which makes
the dict truthy even when the flags mapping is empty. -/
structure Requirement where
  flags : List (String × Bool)
  extraKeys : Bool
deriving DecidableEq, Repr

/-- An effect record, the `type`-tagged dictionaries dispatched by
`AdventureGame.apply_effects`.  An unrecognized `type` falls through every
branch of the Python dispatch and does nothing; `unknownEff` models it. -/
inductive Effect where
  | print (message : String)
  | set_flag (flag : String) (value : Bool)
  | spawn_item_here (item : String)
  | add_item_to_inventory (item : String) (count : Int)
  | unknownEff
deriving DecidableEq, Repr

/-- A global rule: its `when` dict is split into the `moves_at_least`
threshold read by `apply_rules` and the requirement content read by
`requirements_met`; `then` is its effect list. -/
structure Rule where
  moves_at_least : Int
  when_req : Requirement
  then_effects : List Effect
deriving DecidableEq, Repr

/-- One NPC dialogue line: `requires`, `say` and `effects` keys. -/
structure DialogueLine where
  requires : Requirement
  say : String
  effects : List Effect
deriving DecidableEq, Repr

/-- An NPC record: `name`, home `location` id and ordered dialogue lines. -/
structure Npc where
  name : String
  location : Int
  dialogue : List DialogueLine
deriving DecidableEq, Repr

/-- An interaction record: `command`, valid `locations`, `requires` and
`effects`. -/
structure Interaction where
  command : String
  locations : List Int
  requires : Requirement
  effects : List Effect
deriving DecidableEq, Repr

/-- The `settings` dict, restricted to the keys the embedded code reads:
`menu`, and the `movement_costs.timer_range` pair that parameterizes the
`random.randint` call abstracted by the cost oracle. -/
structure Settings where
  menu : Option (List String)
  timer_range : Option (Int × Int)
deriving DecidableEq, Repr

/-- The full `AdventureGame` state: world catalogs plus runtime fields,
exactly the instance attributes set up in `AdventureGame.__init__`. -/
structure GameState where
  locations : List (Int × Location)
  items : List (String × Item)
  flags : List (String × Bool)
  rules : List Rule
  npcs : List Npc
  interactions : List Interaction
  settings : Settings
  current_location_id : Int
  ongoing : Bool
  inventory : List (String × Item × Int)
  score : Int
  moves_made : Int
  movement_timer : Int
  health_bar : Int
  energized : Bool
  hungry : Bool
deriving DecidableEq, Repr

/-- `AdventureGame.get_location()` with no argument: look the current
location id up in the location dict (a `KeyError` becomes `none`). -/
def getLocation (s : GameState) : Option Location :=
  dictGet s.locations s.current_location_id

/-- `AdventureGame.requirements_met`: an empty requirement dict is
vacuously true; otherwise every flag listed under `"flags"` must have
exactly its expected boolean value in `gflags` (`dict.get` of an absent
flag yields `none`, which never equals `some expected`). -/
def requirements_met (gflags : List (String × Bool)) (r : Requirement) : Bool :=
  if r.flags.isEmpty && !r.extraKeys then true
  else r.flags.all (fun p => dictGet gflags p.1 == some p.2)

/-- Python `str.lower()` as used for inventory keys.  (Defined by per-char
lowering so that it reduces in the kernel; on the item names the engine
handles this is the same operation as `String.toLower`.) -/
def strLower (s : String) : String := String.mk (s.data.map Char.toLower)

/-- `AdventureGame.add_item_to_inventory`: look the item up in the registry
(`KeyError` becomes `none`), add its `target_points` to the score once, and
increment the inventory count at the lower-cased name by `count`, creating
the entry at `count` if absent. -/
def add_item_to_inventory (s : GameState) (item_name : String) (count : Int) :
    Option GameState := do
  let item ← dictGet s.items item_name
  let s1 := { s with score := s.score + item.target_points }
  let key := strLower item.name
  match dictGet s1.inventory key with
  | some (item0, c0) =>
      some { s1 with inventory := dictSet s1.inventory key (item0, c0 + count) }
  | none =>
      some { s1 with inventory := dictSet s1.inventory key (item, count) }

/-- `AdventureGame.apply_effects`: fold the tagged effects over the state in
list order, collecting printed messages; a failed registry or location
lookup (Python `KeyError`) aborts with `none`. -/
def apply_effects (s : GameState) : List Effect → Option (GameState × List String)
  | [] => some (s, [])
  | Effect.print m :: rest =>
      (apply_effects s rest).map (fun p => (p.1, m :: p.2))
  | Effect.set_flag f v :: rest =>
      apply_effects { s with flags := dictSet s.flags f v } rest
  | Effect.spawn_item_here nm :: rest => do
      let item ← dictGet s.items nm
      let loc ← getLocation s
      apply_effects
        { s with locations := dictSet s.locations s.current_location_id
                    { loc with items := loc.items ++ [item] } } rest
  | Effect.add_item_to_inventory nm c :: rest => do
      let s' ← add_item_to_inventory s nm c
      apply_effects s' rest
  | Effect.unknownEff :: rest => apply_effects s rest

/-- The loop body of `AdventureGame.apply_rules` over a remaining rule
list: skip a rule whose `moves_at_least` threshold or requirement is unmet,
otherwise apply its `then` effects and continue with the mutated state. -/
def apply_rules_from (s : GameState) : List Rule → Option (GameState × List String)
  | [] => some (s, [])
  | r :: rest =>
      if s.moves_made < r.moves_at_least then apply_rules_from s rest
      else if requirements_met s.flags r.when_req then do
        let (s', out) ← apply_effects s r.then_effects
        let (s'', out') ← apply_rules_from s' rest
        some (s'', out ++ out')
      else apply_rules_from s rest

/-- `AdventureGame.apply_rules`: evaluate every global rule in authored
order against the current state. -/
def apply_rules (s : GameState) : Option (GameState × List String) :=
  apply_rules_from s s.rules

/-- `AdventureGame.get_special_commands`: `talk <name>` for every NPC whose
home location is the current one, followed by the command of every
interaction whose location set contains the current location id and whose
requirement is currently satisfied. -/
def get_special_commands (s : GameState) : List String :=
  (s.npcs.filter (fun n => n.location == s.current_location_id)).map
      (fun n => "talk " ++ n.name)
    ++ (s.interactions.filter (fun i =>
          i.locations.contains s.current_location_id
            && requirements_met s.flags i.requires)).map
        (fun i => i.command)

/-- The observable response of `AdventureGame.run_talk`: either the first
satisfied dialogue line was spoken, or the function fell through to the
final `print("No one by that name is here.")`. -/
inductive TalkOutcome where
  | spoken (say : String)
  | noOne
deriving DecidableEq, Repr

/-- The message `run_talk` prints for each outcome. -/
def talk_message : TalkOutcome → String
  | TalkOutcome.spoken say => say
  | TalkOutcome.noOne => "No one by that name is here."

/-- The loop body of `AdventureGame.run_talk` over a remaining NPC list:
skip NPCs at other locations or with other names; at the first match, speak
the first dialogue line whose requirement is met and apply its effects, or
`break` — which falls through to the shared "No one by that name is here."
print — when no line matches.  Exhausting the list also falls through. -/
def run_talk_from (s : GameState) (name : String) :
    List Npc → Option (GameState × TalkOutcome)
  | [] => some (s, TalkOutcome.noOne)
  | npc :: rest =>
      if npc.location ≠ s.current_location_id ∨ npc.name ≠ name then
        run_talk_from s name rest
      else
        match npc.dialogue.find? (fun l => requirements_met s.flags l.requires) with
        | some line =>
            (apply_effects s line.effects).map
              (fun p => (p.1, TalkOutcome.spoken line.say))
        | none => some (s, TalkOutcome.noOne)

/-- `AdventureGame.run_talk`. -/
def run_talk (s : GameState) (name : String) : Option (GameState × TalkOutcome) :=
  run_talk_from s name s.npcs

/-- The loop body of `AdventureGame.run_interaction`: the first interaction
matching the current location and the command wins; if its requirement is
unmet, print "You can't do that yet." and stop, otherwise apply its
effects.  No match at all is silently a no-op. -/
def run_interaction_from (s : GameState) (command : String) :
    List Interaction → Option (GameState × List String)
  | [] => some (s, [])
  | inter :: rest =>
      if s.current_location_id ∈ inter.locations ∧ inter.command = command then
        if requirements_met s.flags inter.requires then
          apply_effects s inter.effects
        else some (s, ["You can't do that yet."])
      else run_interaction_from s command rest

/-- `AdventureGame.run_interaction`. -/
def run_interaction (s : GameState) (command : String) :
    Option (GameState × List String) :=
  run_interaction_from s command s.interactions

/-- The time-cost modifier branch of `AdventureGame._decrement_timer`:
energized halves the base cost (Python floor division `// 2`), otherwise a
starving player (`health_bar <= 0`) pays double, otherwise the base cost. -/
def move_time_cost (energized : Bool) (health_bar : Int) (base_cost : Int) : Int :=
  if energized then Int.fdiv base_cost 2
  else if health_bar ≤ 0 then base_cost * 2
  else base_cost

/-- `AdventureGame._decrement_timer`, with the result of
`random.randint(low, high)` supplied as `base_cost` by the oracle: subtract
the status-modified cost from the timer clamped at a floor of zero,
decrement `health_bar` by one (unclamped), and end the game when the timer
has run out. -/
def decrement_timer (s : GameState) (base_cost : Int) : GameState :=
  let cost := move_time_cost s.energized s.health_bar base_cost
  let s' := { s with movement_timer := max 0 (s.movement_timer - cost),
                     health_bar := s.health_bar - 1 }
  if s'.movement_timer ≤ 0 then { s' with ongoing := false } else s'

/-- `AdventureGame.move`: resolve the destination through the current
location's command table (a `KeyError` becomes `none`), run
`_decrement_timer` with the oracle-drawn `base_cost`, count the move and
sweep the global rules. -/
def move (s : GameState) (command : String) (base_cost : Int) : Option GameState := do
  let loc ← getLocation s
  let dest ← dictGet loc.available_commands command
  let s1 := { s with current_location_id := dest }
  let s2 := decrement_timer s1 base_cost
  let s3 := { s2 with moves_made := s2.moves_made + 1 }
  (apply_rules s3).map Prod.fst

/-- The loop of `AdventureGame.update_inventory` over the location's item
list: for each item add its `target_points` to the score and bump the
inventory count at the lower-cased name, creating the entry at 1. -/
def update_inventory_items (inv : List (String × Item × Int)) (score : Int) :
    List Item → List (String × Item × Int) × Int
  | [] => (inv, score)
  | item :: rest =>
      let key := strLower item.name
      let inv' :=
        match dictGet inv key with
        | some (item0, c0) => dictSet inv key (item0, c0 + 1)
        | none => dictSet inv key (item, 1)
      update_inventory_items inv' (score + item.target_points) rest

/-- `AdventureGame.update_inventory` applied to the current location's item
list (as `search_location` and the simulation's search handler do),
followed by `loc_items.clear()`. -/
def do_search (s : GameState) (loc : Location) : GameState :=
  let (inv', score') := update_inventory_items s.inventory s.score loc.items
  { s with inventory := inv', score := score',
           locations := dictSet s.locations s.current_location_id
              { loc with items := [] } }

/-- `AdventureGame.consume_item`: a missing or inedible item is a no-op
apart from a message; otherwise restore health (cancelling the energized
status), apply an `energize` special effect, then decrement the inventory
count and delete the entry when it drops to zero or below. -/
def consume_item (s : GameState) (item_name : String) : GameState :=
  let key := strLower item_name
  match dictGet s.inventory key with
  | none => s
  | some (item_obj, count) =>
      if !item_obj.edible then s
      else
        let s1 := if item_obj.restore_value > 0 then
            { s with health_bar := s.health_bar + item_obj.restore_value,
                     energized := false }
          else s
        let s2 := if item_obj.special_effect = some "energize" then
            { s1 with energized := true }
          else s1
        if count - 1 ≤ 0 then { s2 with inventory := dictDel s2.inventory key }
        else { s2 with inventory := dictSet s2.inventory key (item_obj, count - 1) }

/-- The `drop` branch of one `AdventureGame.manage_inventory` round for an
inventory key `target`: append the item to the current location's list,
decrement the count and delete the entry when it reaches zero or below.  A
key not in the inventory is a no-op (the loop re-prompts). -/
def manage_drop (s : GameState) (target : String) : Option GameState :=
  match dictGet s.inventory target with
  | none => some s
  | some (item_obj, count) => do
      let loc ← getLocation s
      let loc' := { loc with items := loc.items ++ [item_obj] }
      let s1 := { s with locations := dictSet s.locations s.current_location_id loc' }
      if count - 1 ≤ 0 then
        some { s1 with inventory := dictDel s1.inventory target }
      else
        some { s1 with inventory := dictSet s1.inventory target (item_obj, count - 1) }

/-- The `eat` branch of one `AdventureGame.manage_inventory` round for an
inventory key `target`: only an edible item is consumed (health restore and
energize as in `consume_item`), its count decremented and the entry deleted
at zero or below; anything else is a no-op. -/
def manage_eat (s : GameState) (target : String) : GameState :=
  match dictGet s.inventory target with
  | none => s
  | some (item_obj, count) =>
      if !item_obj.edible then s
      else
        let s1 := if item_obj.restore_value > 0 then
            { s with health_bar := s.health_bar + item_obj.restore_value,
                     energized := false }
          else s
        let s2 := if item_obj.special_effect = some "energize" then
            { s1 with energized := true }
          else s1
        if count - 1 ≤ 0 then { s2 with inventory := dictDel s2.inventory target }
        else { s2 with inventory := dictSet s2.inventory target (item_obj, count - 1) }

/-- `event_logger.Event`: location id, description snapshot and the command
that leads from this event to the next one (`None` until that next event is
appended).  The `next`/`prev` links of the doubly-linked list are the
positions in the `List Event` that models an `EventList`. -/
structure Event where
  id_num : Int
  description : String
  next_command : Option String
deriving DecidableEq, Repr

/-- Overwrite the `next_command` field of the last event of the list, as
the assignment `self.last.next_command = command` does. -/
def set_last_command : List Event → Option String → List Event
  | [], _ => []
  | [e], c => [{ e with next_command := c }]
  | e :: rest, c => e :: set_last_command rest c

/-- `EventList.add_event`: on an empty list install the event as both
anchors; otherwise set the previous tail's `next_command` to the command
that reached the new event, then append the new event (whose own
`next_command` stays as constructed). -/
def add_event (l : List Event) (event : Event) (command : Option String) :
    List Event :=
  match l with
  | [] => [event]
  | _ :: _ => set_last_command l command ++ [event]

/-- `EventList.get_id_log`: the location ids of all events in order. -/
def get_id_log (l : List Event) : List Int :=
  l.map Event.id_num

/-- The event list built the way the interactive session and
`AdventureGameSimulation.__init__` build it: one initial event appended
with no command, then one event per executed command, appended with that
command. -/
def build_session_log (start : Event) (steps : List (Event × String)) :
    List Event :=
  steps.foldl (fun l p => add_event l p.1 (some p.2)) (add_event [] start none)

/-- `AdventureGameSimulation._menu`: the settings menu if provided, else
the default list. -/
def menuList (s : GameState) : List String :=
  s.settings.menu.getD ["look", "inventory", "score", "log", "search", "quit"]

/-- The state change of one `AdventureGameSimulation._menu_handlers()`
handler: `quit` clears `ongoing`, `search` transfers the current location's
items into the inventory, and `log`/`look`/`inventory`/`score` only print. -/
def menu_handler (s : GameState) (loc : Location) (command : String) : GameState :=
  if command = "quit" then { s with ongoing := false }
  else if command = "search" then do_search s loc
  else s

/-- `AdventureGameSimulation._execute_command`: fetch the current location
(`KeyError` becomes `none`), reject a command that is in none of the menu,
the location's command table or the special commands and is not
`talk `-prefixed (the raised `ValueError` becomes `none`), then dispatch in
the Python order: fixed menu handlers, `talk`, interactions, movement.
Only movement consumes a draw from the cost oracle stream. -/
def execute_command (s : GameState) (command : String) (draws : List Int) :
    Option (GameState × List Int) := do
  let loc ← getLocation s
  let special := get_special_commands s
  if command ∉ menuList s ∧ (dictGet loc.available_commands command).isNone
      ∧ command ∉ special ∧ ¬ command.startsWith "talk " then
    none
  else if command ∈ ["log", "quit", "look", "search", "inventory", "score"] then
    some (menu_handler s loc command, draws)
  else if command.startsWith "talk " then
    (run_talk s (command.drop 5)).map (fun p => (p.1, draws))
  else if command ∈ special then
    (run_interaction s command).map (fun p => (p.1, draws))
  else
    (move s command (draws.headD 0)).map (fun s' => (s', draws.tail))

/-- The command loop of `AdventureGameSimulation.__init__`: execute each
command and append an event for the resulting location (even when the
location did not change). -/
def simulate_from (s : GameState) (cmds : List String) (draws : List Int)
    (evs : List Event) : Option (List Event) :=
  match cmds with
  | [] => some evs
  | c :: rest => do
      let (s', draws') ← execute_command s c draws
      let loc ← getLocation s'
      simulate_from s' rest draws'
        (add_event evs ⟨loc.id_num, loc.long_description, none⟩ (some c))

/-- A whole `AdventureGameSimulation` run: record the starting event, run
every command, and answer `get_id_log`.  `draws` is the oracle stream of
`random.randint` results that `random.seed(seed)` makes reproducible. -/
def simulate (s : GameState) (cmds : List String) (draws : List Int) :
    Option (List Int) := do
  let startLoc ← getLocation s
  let evs ← simulate_from s cmds draws
      (add_event [] ⟨startLoc.id_num, startLoc.long_description, none⟩ none)
  some (get_id_log evs)

/-- The inventory-mutating operations of the engine, for stating the
inventory count invariant: a data-driven `add_item_to_inventory` effect, a
`search` pickup of the current location's items, `consume_item`, and the
`drop`/`eat` branches of `manage_inventory`. -/
inductive InvOp where
  | addEff (item : String) (count : Int)
  | searchHere
  | consume (name : String)
  | dropOne (target : String)
  | eatOne (target : String)
deriving DecidableEq, Repr

/-- Apply one inventory-mutating operation to the game state. -/
def apply_inv_op (s : GameState) : InvOp → Option GameState
  | InvOp.addEff item count => add_item_to_inventory s item count
  | InvOp.searchHere => (getLocation s).map (do_search s)
  | InvOp.consume name => some (consume_item s name)
  | InvOp.dropOne target => manage_drop s target
  | InvOp.eatOne target => some (manage_eat s target)

/-- Apply a sequence of inventory-mutating operations. -/
def apply_inv_ops (s : GameState) (ops : List InvOp) : Option GameState :=
  List.foldlM apply_inv_op s ops

/-- Every inventory entry's count is at least 1 (and hence positive):
the inventory count invariant. -/
def inv_counts_ok (s : GameState) : Bool :=
  s.inventory.all (fun p => decide (1 ≤ p.2.2))

/-- A sequence of move commands paired with the oracle-drawn base cost of
each move, applied through `move`. -/
def apply_move_seq (s : GameState) (ms : List (String × Int)) : Option GameState :=
  List.foldlM (fun st (p : String × Int) => move st p.1 p.2) s ms

/-- The number of items with the given name in the current location's item
list (0 when the current location id does not resolve). -/
def loc_item_count_named (s : GameState) (nm : String) : Nat :=
  match getLocation s with
  | none => 0
  | some loc => (loc.items.filter (fun i => i.name == nm)).length

/-- The inventory count recorded at a key, 0 when the key is absent. -/
def inv_count (inv : List (String × Item × Int)) (key : String) : Int :=
  match dictGet inv key with
  | none => 0
  | some (_, c) => c

/-- The first NPC of the npc list whose home location is the current one
and whose name matches: the NPC `run_talk` settles on. -/
def find_npc (s : GameState) (name : String) : Option Npc :=
  s.npcs.find? (fun n => n.location == s.current_location_id && n.name == name)

/-- A small valued item, as an authored world would declare it. -/
def gemItem : Item :=
  { name := "gem", description := "a shiny gem", start_position := 0,
    target_position := 0, target_points := 5, edible := false,
    restore_value := 0, special_effect := none }

/-- A small edible item. -/
def wrapItem : Item :=
  { name := "wrap", description := "a shawarma wrap", start_position := 0,
    target_position := 0, target_points := 2, edible := true,
    restore_value := 3, special_effect := none }

/-- A two-location test world: location 0 and location 1, joined both ways
by the movement command "go". -/
def loc0 : Location :=
  { name := "Dorm", id_num := 0, brief_description := "dorm",
    long_description := "your dorm room", available_commands := [("go", 1)],
    items := [], visited := false }

/-- The second location of the test world. -/
def loc1 : Location :=
  { name := "Hall", id_num := 1, brief_description := "hall",
    long_description := "the dining hall", available_commands := [("go", 0)],
    items := [], visited := false }

/-- An authored world with no optional sections: empty settings. -/
def emptySettings : Settings := { menu := none, timer_range := none }

/-- The freshly initialized game state over the two-location test world,
with the `__init__` defaults: timer 120, health 10, empty inventory. -/
def baseState : GameState :=
  { locations := [(0, loc0), (1, loc1)],
    items := [("gem", gemItem), ("wrap", wrapItem)],
    flags := [], rules := [], npcs := [], interactions := [],
    settings := emptySettings, current_location_id := 0, ongoing := true,
    inventory := [], score := 0, moves_made := 0, movement_timer := 120,
    health_bar := 10, energized := false, hungry := false }

/-- The test world with a gem already lying at location 0. -/
def gemHereState : GameState :=
  { baseState with
    locations := [(0, { loc0 with items := [gemItem] }), (1, loc1)] }

/-- An NPC named "bob" at location 0 whose single dialogue line requires a
flag that is never set. -/
def bobNpc : Npc :=
  { name := "bob", location := 0,
    dialogue := [{ requires := { flags := [("met", true)], extraKeys := false },
                   say := "hello", effects := [] }] }

/-- The test world with `bobNpc` present and the flag "met" unset. -/
def bobState : GameState := { baseState with npcs := [bobNpc] }

/-- The test world with a single requirement-free interaction at
location 0. -/
def lockerInteraction : Interaction :=
  { command := "open locker", locations := [0],
    requires := { flags := [], extraKeys := false }, effects := [] }

/-- The test world with `lockerInteraction` authored. -/
def lockerState : GameState := { baseState with interactions := [lockerInteraction] }

/-- The state reached from `baseState` by one "go" move with base cost 5. -/
def moveOnceResult : GameState :=
  { baseState with
    current_location_id := 1
    movement_timer := 115
    health_bar := 9
    moves_made := 1 }

/-- The state reached from `baseState` by one count-1 gem add. -/
def addGemResult : GameState :=
  { baseState with score := 5, inventory := [("gem", gemItem, 1)] }

/-- The projection of a `GameState` onto the fields that the visited-id log
can depend on: everything except the meters (`movement_timer`,
`health_bar`, `energized`, `hungry`) and the `ongoing` flag, none of which
the simulation's dispatch or the location trace ever reads. -/
structure CoreState where
  locations : List (Int × Location)
  items : List (String × Item)
  flags : List (String × Bool)
  rules : List Rule
  npcs : List Npc
  interactions : List Interaction
  settings : Settings
  current_location_id : Int
  inventory : List (String × Item × Int)
  score : Int
  moves_made : Int

/-- Project a game state onto its log-relevant core. -/
def core (s : GameState) : CoreState :=
  ⟨s.locations, s.items, s.flags, s.rules, s.npcs, s.interactions, s.settings,
   s.current_location_id, s.inventory, s.score, s.moves_made⟩

/-- Lift core equality to fallible results that also carry an auxiliary
value (printed output, a talk outcome): both computations fail together or
succeed with core-equal states and equal auxiliary values. -/
def coreRel {β : Type} : Option (GameState × β) → Option (GameState × β) → Prop
  | none, none => True
  | some p, some q => core p.1 = core q.1 ∧ p.2 = q.2
  | _, _ => False

/-- Core equality on fallible plain-state results. -/
def coreRelS : Option GameState → Option GameState → Prop
  | none, none => True
  | some a, some b => core a = core b
  | _, _ => False

/-- Core equality on fallible results that also carry the remaining oracle
stream; the streams themselves are allowed to differ. -/
def coreRelD : Option (GameState × List Int) → Option (GameState × List Int) → Prop
  | none, none => True
  | some p, some q => core p.1 = core q.1
  | _, _ => False

/-- Every inventory entry's count is at least 1, as a proposition. -/
def InvOK (inv : List (String × Item × Int)) : Prop :=
  ∀ p ∈ inv, 1 ≤ p.2.2

/-- An inventory operation is count-safe when, in the `add` case, the
authored count is at least 1 (the Python default); the other operations
carry no authored count. -/
def op_count_ok : InvOp → Prop
  | InvOp.addEff _ c => 1 ≤ c
  | _ => True

lemma core_eq_iff {s1 s2 : GameState} : core s1 = core s2 ↔
    s1.locations = s2.locations ∧ s1.items = s2.items ∧ s1.flags = s2.flags
    ∧ s1.rules = s2.rules ∧ s1.npcs = s2.npcs
    ∧ s1.interactions = s2.interactions ∧ s1.settings = s2.settings
    ∧ s1.current_location_id = s2.current_location_id
    ∧ s1.inventory = s2.inventory ∧ s1.score = s2.score
    ∧ s1.moves_made = s2.moves_made := by
  simp [core, CoreState.mk.injEq]

lemma getLocation_core {s1 s2 : GameState} (h : core s1 = core s2) :
    getLocation s1 = getLocation s2 := by
  obtain ⟨h1, _, _, _, _, _, _, h8, _, _, _⟩ := core_eq_iff.mp h
  unfold getLocation
  rw [h1, h8]

lemma get_special_commands_core {s1 s2 : GameState} (h : core s1 = core s2) :
    get_special_commands s1 = get_special_commands s2 := by
  obtain ⟨_, _, h3, _, h5, h6, _, h8, _, _, _⟩ := core_eq_iff.mp h
  unfold get_special_commands
  rw [h3, h5, h6, h8]

lemma menuList_core {s1 s2 : GameState} (h : core s1 = core s2) :
    menuList s1 = menuList s2 := by
  obtain ⟨_, _, _, _, _, _, h7, _, _, _, _⟩ := core_eq_iff.mp h
  unfold menuList
  rw [h7]

lemma add_item_core {s1 s2 : GameState} (nm : String) (c : Int)
    (h : core s1 = core s2) :
    coreRelS (add_item_to_inventory s1 nm c) (add_item_to_inventory s2 nm c) := by
  obtain ⟨h1, h2, h3, h4, h5, h6, h7, h8, h9, h10, h11⟩ := core_eq_iff.mp h
  unfold add_item_to_inventory
  rw [h2]
  cases dictGet s2.items nm with
  | none => simp [coreRelS]
  | some item =>
      simp only [Option.bind_eq_bind, Option.some_bind]
      rw [h9, h10]
      cases dictGet s2.inventory (strLower item.name) with
      | none =>
          simp [coreRelS, core_eq_iff, h1, h2, h3, h4, h5, h6, h7, h8, h9, h10, h11]
      | some p =>
          simp [coreRelS, core_eq_iff, h1, h2, h3, h4, h5, h6, h7, h8, h9, h10, h11]

lemma apply_effects_core (effs : List Effect) :
    ∀ s1 s2 : GameState, core s1 = core s2 →
      coreRel (apply_effects s1 effs) (apply_effects s2 effs) := by
  induction effs with
  | nil =>
      intro s1 s2 h
      simpa [apply_effects, coreRel] using h
  | cons e rest ih =>
      intro s1 s2 h
      obtain ⟨h1, h2, h3, h4, h5, h6, h7, h8, h9, h10, h11⟩ := core_eq_iff.mp h
      cases e with
      | print m =>
          have hr := ih s1 s2 h
          simp only [apply_effects]
          cases ha : apply_effects s1 rest <;> cases hb : apply_effects s2 rest <;>
            rw [ha, hb] at hr <;> simp_all [coreRel]
      | set_flag f v =>
          simp only [apply_effects]
          apply ih
          rw [core_eq_iff]
          exact ⟨h1, h2, by rw [h3], h4, h5, h6, h7, h8, h9, h10, h11⟩
      | spawn_item_here nm =>
          simp only [apply_effects]
          rw [h2, getLocation_core h]
          cases dictGet s2.items nm with
          | none => simp [coreRel]
          | some item =>
              cases getLocation s2 with
              | none => simp [coreRel]
              | some loc =>
                  simp only [Option.bind_eq_bind, Option.some_bind]
                  rw [h1, h8]
                  apply ih
                  simp [core_eq_iff, h1, h2, h3, h4, h5, h6, h7, h8, h9, h10, h11]
      | add_item_to_inventory nm c =>
          simp only [apply_effects, Option.bind_eq_bind]
          have hr := add_item_core nm c h
          cases ha : add_item_to_inventory s1 nm c <;>
            cases hb : add_item_to_inventory s2 nm c <;> rw [ha, hb] at hr
          · simp [coreRel]
          · exact absurd hr (by simp [coreRelS])
          · exact absurd hr (by simp [coreRelS])
          · simp only [Option.some_bind]
            exact ih _ _ (by simpa [coreRelS] using hr)
      | unknownEff =>
          simp only [apply_effects]
          exact ih s1 s2 h

lemma apply_rules_from_core (rules : List Rule) :
    ∀ s1 s2 : GameState, core s1 = core s2 →
      coreRel (apply_rules_from s1 rules) (apply_rules_from s2 rules) := by
  induction rules with
  | nil =>
      intro s1 s2 h
      simpa [apply_rules_from, coreRel] using h
  | cons r rest ih =>
      intro s1 s2 h
      obtain ⟨h1, h2, h3, h4, h5, h6, h7, h8, h9, h10, h11⟩ := core_eq_iff.mp h
      simp only [apply_rules_from]
      rw [h3, h11]
      by_cases hm : s2.moves_made < r.moves_at_least
      · simp only [if_pos hm]
        exact ih s1 s2 h
      · simp only [if_neg hm]
        by_cases hreq : requirements_met s2.flags r.when_req
        · simp only [if_pos hreq]
          have hr := apply_effects_core r.then_effects s1 s2 h
          cases ha : apply_effects s1 r.then_effects <;>
            cases hb : apply_effects s2 r.then_effects <;>
              rw [ha, hb] at hr <;> simp_all [coreRel, Option.bind_eq_bind]
          rename_i p q
          have hrec := ih p.1 q.1 hr.1
          cases hc : apply_rules_from p.1 rest <;>
            cases hd : apply_rules_from q.1 rest <;>
              rw [hc, hd] at hrec <;> simp_all [coreRel]
        · simp only [if_neg hreq]
          exact ih s1 s2 h

lemma run_talk_from_core (name : String) (npcs : List Npc) :
    ∀ s1 s2 : GameState, core s1 = core s2 →
      coreRel (run_talk_from s1 name npcs) (run_talk_from s2 name npcs) := by
  induction npcs with
  | nil =>
      intro s1 s2 h
      simpa [run_talk_from, coreRel] using h
  | cons npc rest ih =>
      intro s1 s2 h
      obtain ⟨h1, h2, h3, h4, h5, h6, h7, h8, h9, h10, h11⟩ := core_eq_iff.mp h
      simp only [run_talk_from]
      rw [h8, h3]
      by_cases hskip : npc.location ≠ s2.current_location_id ∨ npc.name ≠ name
      · simp only [if_pos hskip]
        exact ih s1 s2 h
      · simp only [if_neg hskip]
        cases npc.dialogue.find? (fun l => requirements_met s2.flags l.requires) with
        | none => simpa [coreRel] using h
        | some line =>
            have hr := apply_effects_core line.effects s1 s2 h
            cases ha : apply_effects s1 line.effects <;>
              cases hb : apply_effects s2 line.effects <;>
                rw [ha, hb] at hr <;> simp_all [coreRel]

lemma run_talk_core {s1 s2 : GameState} (name : String) (h : core s1 = core s2) :
    coreRel (run_talk s1 name) (run_talk s2 name) := by
  unfold run_talk
  have h5 : s1.npcs = s2.npcs := (core_eq_iff.mp h).2.2.2.2.1
  rw [h5]
  exact run_talk_from_core name s2.npcs s1 s2 h

lemma run_interaction_from_core (command : String) (inters : List Interaction) :
    ∀ s1 s2 : GameState, core s1 = core s2 →
      coreRel (run_interaction_from s1 command inters)
        (run_interaction_from s2 command inters) := by
  induction inters with
  | nil =>
      intro s1 s2 h
      simpa [run_interaction_from, coreRel] using h
  | cons inter rest ih =>
      intro s1 s2 h
      obtain ⟨h1, h2, h3, h4, h5, h6, h7, h8, h9, h10, h11⟩ := core_eq_iff.mp h
      simp only [run_interaction_from]
      rw [h8, h3]
      by_cases hmatch : s2.current_location_id ∈ inter.locations ∧ inter.command = command
      · simp only [if_pos hmatch]
        by_cases hreq : requirements_met s2.flags inter.requires
        · simp only [if_pos hreq]
          exact apply_effects_core inter.effects s1 s2 h
        · simp only [if_neg hreq]
          simpa [coreRel] using h
      · simp only [if_neg hmatch]
        exact ih s1 s2 h

lemma run_interaction_core {s1 s2 : GameState} (command : String)
    (h : core s1 = core s2) :
    coreRel (run_interaction s1 command) (run_interaction s2 command) := by
  unfold run_interaction
  have h6 : s1.interactions = s2.interactions := (core_eq_iff.mp h).2.2.2.2.2.1
  rw [h6]
  exact run_interaction_from_core command s2.interactions s1 s2 h

lemma do_search_core {s1 s2 : GameState} (loc : Location) (h : core s1 = core s2) :
    core (do_search s1 loc) = core (do_search s2 loc) := by
  obtain ⟨h1, h2, h3, h4, h5, h6, h7, h8, h9, h10, h11⟩ := core_eq_iff.mp h
  unfold do_search
  rw [h1, h8, h9, h10]
  simp [core_eq_iff, h1, h2, h3, h4, h5, h6, h7, h8, h9, h10, h11]

lemma decrement_timer_core (s : GameState) (b : Int) :
    core (decrement_timer s b) = core s := by
  unfold decrement_timer
  dsimp only
  split <;> rfl

lemma move_core {s1 s2 : GameState} (command : String) (b1 b2 : Int)
    (h : core s1 = core s2) :
    coreRelS (move s1 command b1) (move s2 command b2) := by
  obtain ⟨h1, h2, h3, h4, h5, h6, h7, h8, h9, h10, h11⟩ := core_eq_iff.mp h
  unfold move
  rw [getLocation_core h]
  cases getLocation s2 with
  | none => simp [coreRelS]
  | some loc =>
      simp only [Option.bind_eq_bind, Option.some_bind]
      cases dictGet loc.available_commands command with
      | none => simp [coreRelS]
      | some dest =>
          simp only [Option.some_bind]
          set t1 := decrement_timer { s1 with current_location_id := dest } b1 with ht1
          set t2 := decrement_timer { s2 with current_location_id := dest } b2 with ht2
          have hc : core { t1 with moves_made := t1.moves_made + 1 }
                  = core { t2 with moves_made := t2.moves_made + 1 } := by
            have d1 : core t1 = core { s1 with current_location_id := dest } :=
              decrement_timer_core _ _
            have d2 : core t2 = core { s2 with current_location_id := dest } :=
              decrement_timer_core _ _
            rw [core_eq_iff] at d1 d2 ⊢
            obtain ⟨d11, d12, d13, d14, d15, d16, d17, d18, d19, d110, d111⟩ := d1
            obtain ⟨d21, d22, d23, d24, d25, d26, d27, d28, d29, d210, d211⟩ := d2
            simp_all
          have hrules_eq :
              ({ t1 with moves_made := t1.moves_made + 1 } : GameState).rules
                = ({ t2 with moves_made := t2.moves_made + 1 } : GameState).rules :=
            (core_eq_iff.mp hc).2.2.2.1
          unfold apply_rules
          rw [hrules_eq]
          have hrel := apply_rules_from_core
            (({ t2 with moves_made := t2.moves_made + 1 } : GameState).rules) _ _ hc
          cases ha : apply_rules_from { t1 with moves_made := t1.moves_made + 1 }
              ({ t2 with moves_made := t2.moves_made + 1 } : GameState).rules <;>
            cases hb : apply_rules_from { t2 with moves_made := t2.moves_made + 1 }
                ({ t2 with moves_made := t2.moves_made + 1 } : GameState).rules <;>
              rw [ha, hb] at hrel <;> simp_all [coreRel, coreRelS]

lemma menu_handler_core {s1 s2 : GameState} (loc : Location) (c : String)
    (h : core s1 = core s2) :
    core (menu_handler s1 loc c) = core (menu_handler s2 loc c) := by
  unfold menu_handler
  by_cases hq : c = "quit"
  · simpa [hq] using h
  · by_cases hs : c = "search"
    · simpa [hq, hs] using do_search_core loc h
    · simpa [hq, hs] using h

lemma coreRelD_of_coreRel {β : Type} {a b : Option (GameState × β)}
    {d1 d2 : List Int} (h : coreRel a b) :
    coreRelD (a.map fun p => (p.1, d1)) (b.map fun p => (p.1, d2)) := by
  cases a <;> cases b <;> simp_all [coreRel, coreRelD]

lemma coreRelD_of_coreRelS {a b : Option GameState} {d1 d2 : List Int}
    (h : coreRelS a b) :
    coreRelD (a.map fun s => (s, d1)) (b.map fun s => (s, d2)) := by
  cases a <;> cases b <;> simp_all [coreRelS, coreRelD]

set_option maxHeartbeats 1000000 in
lemma execute_command_core {s1 s2 : GameState} {c : String} {d1 d2 : List Int}
    (h : core s1 = core s2) :
    coreRelD (execute_command s1 c d1) (execute_command s2 c d2) := by
  unfold execute_command
  rw [getLocation_core h]
  cases getLocation s2 with
  | none => simp [coreRelD]
  | some loc =>
      simp only [Option.bind_eq_bind, Option.some_bind]
      rw [get_special_commands_core h, menuList_core h]
      split_ifs with hv hm ht hi
      · simp [coreRelD]
      · simpa only [coreRelD] using menu_handler_core loc c h
      · exact coreRelD_of_coreRel (run_talk_core (c.drop 5) h)
      · exact coreRelD_of_coreRel (run_interaction_core c h)
      · exact coreRelD_of_coreRelS (move_core c (d1.headD 0) (d2.headD 0) h)

lemma simulate_from_core (cmds : List String) :
    ∀ (s1 s2 : GameState) (d1 d2 : List Int) (evs : List Event),
      core s1 = core s2 →
      simulate_from s1 cmds d1 evs = simulate_from s2 cmds d2 evs := by
  induction cmds with
  | nil => intro s1 s2 d1 d2 evs _; rfl
  | cons c rest ih =>
      intro s1 s2 d1 d2 evs h
      simp only [simulate_from, Option.bind_eq_bind]
      have hr := @execute_command_core s1 s2 c d1 d2 h
      cases ha : execute_command s1 c d1 with
      | none =>
          cases hb : execute_command s2 c d2 with
          | none => rfl
          | some q =>
              rw [ha, hb] at hr
              exact absurd hr (by simp [coreRelD])
      | some p =>
          cases hb : execute_command s2 c d2 with
          | none =>
              rw [ha, hb] at hr
              exact absurd hr (by simp [coreRelD])
          | some q =>
              rw [ha, hb] at hr
              simp only [coreRelD] at hr
              simp only [Option.some_bind]
              rw [getLocation_core hr]
              cases getLocation q.1 with
              | none => rfl
              | some loc2 =>
                  simp only [Option.some_bind]
                  exact ih _ _ _ _ _ hr

lemma dictGet_dictSet_self {κ α : Type} [DecidableEq κ] (xs : List (κ × α))
    (k : κ) (v : α) : dictGet (dictSet xs k v) k = some v := by
  induction xs with
  | nil => simp [dictGet, dictSet]
  | cons p rest ih =>
      by_cases hk : p.1 = k
      · simp [dictGet, dictSet, hk]
      · simpa [dictGet, dictSet, hk] using ih

lemma dictGet_dictSet_ne {κ α : Type} [DecidableEq κ] (xs : List (κ × α))
    {k k' : κ} (v : α) (h : k ≠ k') :
    dictGet (dictSet xs k v) k' = dictGet xs k' := by
  induction xs with
  | nil => simp [dictGet, dictSet, h]
  | cons p rest ih =>
      by_cases hk : p.1 = k
      · simp [dictGet, dictSet, hk, h]
      · simp [dictGet, dictSet, hk]
        split <;> simp_all [dictGet]

lemma mem_dictSet {κ α : Type} [DecidableEq κ] {xs : List (κ × α)}
    {k : κ} {v : α} {p : κ × α} (h : p ∈ dictSet xs k v) :
    p ∈ xs ∨ p = (k, v) := by
  induction xs with
  | nil => simpa [dictSet] using h
  | cons q rest ih =>
      by_cases hk : q.1 = k
      · rw [dictSet, if_pos hk] at h
        rcases List.mem_cons.mp h with h1 | h1
        · exact Or.inr h1
        · exact Or.inl (List.mem_cons_of_mem _ h1)
      · rw [dictSet, if_neg hk] at h
        rcases List.mem_cons.mp h with h1 | h1
        · exact Or.inl (h1 ▸ List.mem_cons_self _ _)
        · rcases ih h1 with h2 | h2
          · exact Or.inl (List.mem_cons_of_mem _ h2)
          · exact Or.inr h2

lemma mem_dictDel {κ α : Type} [DecidableEq κ] {xs : List (κ × α)} {k : κ}
    {p : κ × α} (h : p ∈ dictDel xs k) : p ∈ xs := by
  induction xs with
  | nil => simp [dictDel] at h
  | cons q rest ih =>
      by_cases hk : q.1 = k
      · rw [dictDel, if_pos hk] at h
        exact List.mem_cons_of_mem _ (ih h)
      · rw [dictDel, if_neg hk] at h
        rcases List.mem_cons.mp h with h1 | h1
        · exact h1 ▸ List.mem_cons_self _ _
        · exact List.mem_cons_of_mem _ (ih h1)

lemma dictGet_mem {κ α : Type} [DecidableEq κ] {xs : List (κ × α)} {k : κ}
    {v : α} (h : dictGet xs k = some v) : (k, v) ∈ xs := by
  induction xs with
  | nil => simp [dictGet] at h
  | cons q rest ih =>
      by_cases hk : q.1 = k
      · rw [dictGet, if_pos hk] at h
        obtain rfl : q.2 = v := by injection h
        exact (Prod.ext hk.symm rfl : (k, q.2) = q) ▸ List.mem_cons_self _ _
      · rw [dictGet, if_neg hk] at h
        exact List.mem_cons_of_mem _ (ih h)

lemma add_item_timer {s s' : GameState} {nm : String} {c : Int}
    (h : add_item_to_inventory s nm c = some s') :
    s'.movement_timer = s.movement_timer ∧ s'.health_bar = s.health_bar := by
  unfold add_item_to_inventory at h
  cases hit : dictGet s.items nm with
  | none => rw [hit] at h; simp at h
  | some item =>
      rw [hit] at h
      simp only [Option.bind_eq_bind, Option.some_bind] at h
      split at h <;> { injection h with h; subst h; exact ⟨rfl, rfl⟩ }

lemma apply_effects_timer (effs : List Effect) :
    ∀ s s' out, apply_effects s effs = some (s', out) →
      s'.movement_timer = s.movement_timer ∧ s'.health_bar = s.health_bar := by
  induction effs with
  | nil =>
      intro s s' out h
      rw [apply_effects] at h
      injection h with h
      obtain rfl : s = s' := congrArg Prod.fst h
      exact ⟨rfl, rfl⟩
  | cons e rest ih =>
      intro s s' out h
      cases e with
      | print m =>
          rw [apply_effects] at h
          cases ha : apply_effects s rest with
          | none => rw [ha] at h; simp at h
          | some p =>
              rw [ha] at h
              injection h with h
              obtain rfl : p.1 = s' := congrArg Prod.fst h
              exact ih s p.1 p.2 ha
      | set_flag f v =>
          rw [apply_effects] at h
          exact ih { s with flags := dictSet s.flags f v } s' out h
      | spawn_item_here nm =>
          rw [apply_effects] at h
          cases hit : dictGet s.items nm with
          | none => rw [hit] at h; simp at h
          | some item =>
              rw [hit] at h
              cases hloc : getLocation s with
              | none => rw [hloc] at h; simp at h
              | some loc =>
                  rw [hloc] at h
                  simp only [Option.bind_eq_bind, Option.some_bind] at h
                  have h2 := ih _ s' out h
                  exact h2
      | add_item_to_inventory nm c =>
          rw [apply_effects] at h
          cases ha : add_item_to_inventory s nm c with
          | none => rw [ha] at h; simp at h
          | some s1 =>
              rw [ha] at h
              simp only [Option.bind_eq_bind, Option.some_bind] at h
              obtain ⟨ht, hh⟩ := add_item_timer ha
              obtain ⟨ht2, hh2⟩ := ih s1 s' out h
              exact ⟨ht2.trans ht, hh2.trans hh⟩
      | unknownEff =>
          rw [apply_effects] at h
          exact ih s s' out h

lemma apply_rules_from_timer (rules : List Rule) :
    ∀ s s' out, apply_rules_from s rules = some (s', out) →
      s'.movement_timer = s.movement_timer ∧ s'.health_bar = s.health_bar := by
  induction rules with
  | nil =>
      intro s s' out h
      rw [apply_rules_from] at h
      injection h with h
      obtain rfl : s = s' := congrArg Prod.fst h
      exact ⟨rfl, rfl⟩
  | cons r rest ih =>
      intro s s' out h
      rw [apply_rules_from] at h
      split at h
      · exact ih s s' out h
      · split at h
        · cases ha : apply_effects s r.then_effects with
          | none => rw [ha] at h; simp at h
          | some p =>
              rw [ha] at h
              simp only [Option.bind_eq_bind, Option.some_bind] at h
              cases hb : apply_rules_from p.1 rest with
              | none => rw [hb] at h; simp at h
              | some q =>
                  rw [hb] at h
                  simp only [Option.some_bind] at h
                  injection h with h
                  obtain rfl : q.1 = s' := congrArg Prod.fst h
                  obtain ⟨ht1, hh1⟩ := apply_effects_timer _ _ _ _ ha
                  obtain ⟨ht2, hh2⟩ := ih _ _ _ hb
                  exact ⟨ht2.trans ht1, hh2.trans hh1⟩
        · exact ih s s' out h

lemma move_timer_nonneg {s s' : GameState} {c : String} {b : Int}
    (h : move s c b = some s') : 0 ≤ s'.movement_timer := by
  unfold move at h
  cases hloc : getLocation s with
  | none => rw [hloc] at h; simp at h
  | some loc =>
      rw [hloc] at h
      simp only [Option.bind_eq_bind, Option.some_bind] at h
      cases hdest : dictGet loc.available_commands c with
      | none => rw [hdest] at h; simp at h
      | some dest =>
          rw [hdest] at h
          simp only [Option.some_bind] at h
          unfold apply_rules at h
          cases ha : apply_rules_from
              { decrement_timer { s with current_location_id := dest } b with
                moves_made :=
                  (decrement_timer { s with current_location_id := dest } b).moves_made + 1 }
              ({ decrement_timer { s with current_location_id := dest } b with
                moves_made :=
                  (decrement_timer { s with current_location_id := dest } b).moves_made + 1 } : GameState).rules with
          | none => rw [ha] at h; simp at h
          | some p =>
              rw [ha] at h
              rw [show Option.map Prod.fst (some p) = some p.1 from rfl] at h
              injection h with h
              subst h
              obtain ⟨ht, _⟩ := apply_rules_from_timer _ _ _ _ ha
              rw [ht]
              show 0 ≤ (decrement_timer { s with current_location_id := dest } b).movement_timer
              unfold decrement_timer
              dsimp only
              split
              · exact le_max_left 0 _
              · exact le_max_left 0 _

lemma apply_move_seq_timer (ms : List (String × Int)) :
    ∀ s s', 0 ≤ s.movement_timer → apply_move_seq s ms = some s' →
      0 ≤ s'.movement_timer := by
  induction ms with
  | nil =>
      intro s s' hs h
      rw [apply_move_seq, List.foldlM_nil] at h
      injection h with h
      exact h ▸ hs
  | cons m rest ih =>
      intro s s' hs h
      rw [apply_move_seq, List.foldlM_cons] at h
      cases hm : move s m.1 m.2 with
      | none => rw [hm] at h; simp at h
      | some t =>
          rw [hm] at h
          simp only [Option.bind_eq_bind, Option.some_bind] at h
          exact ih t s' (move_timer_nonneg hm) h

lemma set_last_command_length : ∀ (l : List Event) (c : Option String),
    (set_last_command l c).length = l.length
  | [], _ => rfl
  | [_], _ => rfl
  | e :: e2 :: rest, c => by
      show (e :: set_last_command (e2 :: rest) c).length = _
      simp [set_last_command_length (e2 :: rest) c]

lemma add_event_length (l : List Event) (e : Event) (c : Option String) :
    (add_event l e c).length = l.length + 1 := by
  cases l with
  | nil => rfl
  | cons a rest =>
      show (set_last_command (a :: rest) c ++ [e]).length = _
      simp [set_last_command_length]

lemma add_event_head (l : List Event) (e : Event) (c : Option String)
    (h : 2 ≤ l.length) : (add_event l e c).head? = l.head? := by
  match l with
  | [] => simp at h
  | [a] => simp at h
  | a :: b :: rest =>
      show ((a :: set_last_command (b :: rest) c) ++ [e]).head? = _
      rfl

lemma add_event_decomp : ∀ (l : List Event) (e : Event) (c : Option String),
    l ≠ [] → ∃ front last0, l = front ++ [last0]
      ∧ add_event l e c = front ++ [{ last0 with next_command := c }, e]
  | [], _, _, h => absurd rfl h
  | [a], e, c, _ => ⟨[], a, rfl, rfl⟩
  | a :: b :: rest, e, c, _ => by
      obtain ⟨front, last0, hl, ha⟩ := add_event_decomp (b :: rest) e c (by simp)
      refine ⟨a :: front, last0, by rw [List.cons_append, ← hl], ?_⟩
      show (a :: set_last_command (b :: rest) c) ++ [e] = _
      have hb : add_event (b :: rest) e c = set_last_command (b :: rest) c ++ [e] := rfl
      rw [List.cons_append, ← hb, ha, List.cons_append]

lemma fold_add_events (steps : List (Event × String)) :
    ∀ l : List Event, 2 ≤ l.length →
      (steps.foldl (fun acc p => add_event acc p.1 (some p.2)) l).length
          = l.length + steps.length
      ∧ (steps.foldl (fun acc p => add_event acc p.1 (some p.2)) l).head?
          = l.head? := by
  induction steps with
  | nil => intro l _; simp
  | cons st rest ih =>
      intro l hl
      rw [List.foldl_cons]
      have hl' : 2 ≤ (add_event l st.1 (some st.2)).length := by
        rw [add_event_length]; omega
      obtain ⟨hlen, hhead⟩ := ih _ hl'
      refine ⟨?_, ?_⟩
      · rw [hlen, add_event_length, List.length_cons]; omega
      · rw [hhead, add_event_head l st.1 _ hl]

lemma run_talk_from_noOne (name : String) (npcs : List Npc) :
    ∀ s : GameState,
      (run_talk_from s name npcs = some (s, TalkOutcome.noOne)
        ↔ (npcs.find? (fun n => n.location == s.current_location_id
              && n.name == name) = none
          ∨ ∃ npc, npcs.find? (fun n => n.location == s.current_location_id
              && n.name == name) = some npc
            ∧ npc.dialogue.find?
                (fun l => requirements_met s.flags l.requires) = none)) := by
  induction npcs with
  | nil =>
      intro s
      simp [run_talk_from, List.find?]
  | cons npc rest ih =>
      intro s
      by_cases hskip : npc.location ≠ s.current_location_id ∨ npc.name ≠ name
      · have hpred : (npc.location == s.current_location_id && npc.name == name)
            = false := by
          rcases hskip with h1 | h1 <;> simp [h1]
        rw [run_talk_from, if_pos hskip,
          List.find?_cons_of_neg _ (by simp [hpred])]
        exact ih s
      · have hpred : (npc.location == s.current_location_id && npc.name == name)
            = true := by
          push_neg at hskip
          simp [hskip.1, hskip.2]
        rw [run_talk_from, if_neg hskip,
          List.find?_cons_of_pos _ (by simp [hpred])]
        cases hline : npc.dialogue.find?
            (fun l => requirements_met s.flags l.requires) with
        | none =>
            constructor
            · intro _
              exact Or.inr ⟨npc, rfl, hline⟩
            · intro _
              rfl
        | some line =>
            constructor
            · intro h
              replace h : Option.map
                  (fun p => (p.1, TalkOutcome.spoken line.say))
                  (apply_effects s line.effects) = some (s, TalkOutcome.noOne) := h
              exfalso
              cases ha : apply_effects s line.effects with
              | none => rw [ha] at h; simp at h
              | some p =>
                  rw [ha] at h
                  simp only [Option.map_some'] at h
                  injection h with h
                  exact absurd (congrArg Prod.snd h) (by simp)
            · rintro (h | ⟨npc', hn, hd⟩)
              · exact absurd h (by simp)
              · obtain rfl : npc = npc' := by injection hn
                rw [hline] at hd
                exact absurd hd (by simp)

lemma InvOK_iff (s : GameState) : inv_counts_ok s = true ↔ InvOK s.inventory := by
  simp [inv_counts_ok, InvOK, List.all_eq_true]

lemma InvOK_dictDel {inv : List (String × Item × Int)} {k : String}
    (h : InvOK inv) : InvOK (dictDel inv k) :=
  fun p hp => h p (mem_dictDel hp)

lemma InvOK_bump {inv : List (String × Item × Int)} (key : String) (item : Item)
    (h : InvOK inv) :
    InvOK (match dictGet inv key with
      | some (item0, c0) => dictSet inv key (item0, c0 + 1)
      | none => dictSet inv key (item, 1)) := by
  cases hg : dictGet inv key with
  | none =>
      intro p hp
      rcases mem_dictSet hp with h1 | h1
      · exact h p h1
      · subst h1
        norm_num
  | some q =>
      obtain ⟨item0, c0⟩ := q
      intro p hp
      rcases mem_dictSet hp with h1 | h1
      · exact h p h1
      · subst h1
        have hc0 : 1 ≤ c0 := h _ (dictGet_mem hg)
        show 1 ≤ c0 + 1
        omega

lemma update_inventory_items_ok (its : List Item) :
    ∀ inv score, InvOK inv → InvOK (update_inventory_items inv score its).1 := by
  induction its with
  | nil =>
      intro inv score h
      exact h
  | cons item rest ih =>
      intro inv score h
      exact ih _ _ (InvOK_bump (strLower item.name) item h)

lemma do_search_inv_ok {s : GameState} (loc : Location)
    (h : InvOK s.inventory) : InvOK (do_search s loc).inventory :=
  update_inventory_items_ok loc.items s.inventory s.score h

lemma add_item_inv_ok {s s' : GameState} {nm : String} {c : Int}
    (ha : add_item_to_inventory s nm c = some s') (hc : 1 ≤ c)
    (h : InvOK s.inventory) : InvOK s'.inventory := by
  unfold add_item_to_inventory at ha
  cases hit : dictGet s.items nm with
  | none => rw [hit] at ha; simp at ha
  | some item =>
      rw [hit] at ha
      simp only [Option.bind_eq_bind, Option.some_bind] at ha
      split at ha
      · rename_i item0 c0 heq
        injection ha with ha
        subst ha
        intro p hp
        rcases mem_dictSet hp with h1 | h1
        · exact h p h1
        · subst h1
          have hc0 : 1 ≤ c0 := h _ (dictGet_mem heq)
          show 1 ≤ c0 + c
          omega
      · injection ha with ha
        subst ha
        intro p hp
        rcases mem_dictSet hp with h1 | h1
        · exact h p h1
        · subst h1
          exact hc

lemma consume_item_inv_ok (s : GameState) (name : String)
    (h : InvOK s.inventory) : InvOK (consume_item s name).inventory := by
  unfold consume_item
  dsimp only
  split
  · exact h
  · next item_obj count heq =>
      split
      · exact h
      · split
        · next hcnt =>
            simp only [apply_ite GameState.inventory, ite_self]
            intro p hp
            exact h p (mem_dictDel hp)
        · next hcnt =>
            simp only [apply_ite GameState.inventory, ite_self]
            intro p hp
            rcases mem_dictSet hp with h1 | h1
            · exact h p h1
            · subst h1
              show 1 ≤ count - 1
              omega

lemma manage_eat_inv_ok (s : GameState) (target : String)
    (h : InvOK s.inventory) : InvOK (manage_eat s target).inventory := by
  unfold manage_eat
  dsimp only
  split
  · exact h
  · next item_obj count heq =>
      split
      · exact h
      · split
        · next hcnt =>
            simp only [apply_ite GameState.inventory, ite_self]
            intro p hp
            exact h p (mem_dictDel hp)
        · next hcnt =>
            simp only [apply_ite GameState.inventory, ite_self]
            intro p hp
            rcases mem_dictSet hp with h1 | h1
            · exact h p h1
            · subst h1
              show 1 ≤ count - 1
              omega

lemma manage_drop_inv_ok {s s' : GameState} {target : String}
    (ha : manage_drop s target = some s') (h : InvOK s.inventory) :
    InvOK s'.inventory := by
  unfold manage_drop at ha
  cases hg : dictGet s.inventory target with
  | none =>
      rw [hg] at ha
      injection ha with ha
      subst ha
      exact h
  | some q =>
      obtain ⟨item_obj, count⟩ := q
      rw [hg] at ha
      cases hloc : getLocation s with
      | none => rw [hloc] at ha; simp at ha
      | some loc =>
          rw [hloc] at ha
          simp only [Option.bind_eq_bind, Option.some_bind] at ha
          split at ha
          · next hcnt =>
              injection ha with ha
              subst ha
              intro p hp
              exact h p (mem_dictDel hp)
          · next hcnt =>
              injection ha with ha
              subst ha
              intro p hp
              rcases mem_dictSet hp with h1 | h1
              · exact h p h1
              · subst h1
                show 1 ≤ count - 1
                omega

lemma apply_inv_op_ok {s s' : GameState} {op : InvOp} (hop : op_count_ok op)
    (h : InvOK s.inventory) (ha : apply_inv_op s op = some s') :
    InvOK s'.inventory := by
  cases op with
  | addEff nm c => exact add_item_inv_ok ha hop h
  | searchHere =>
      rw [apply_inv_op] at ha
      cases hloc : getLocation s with
      | none => rw [hloc] at ha; simp at ha
      | some loc =>
          rw [hloc] at ha
          simp only [Option.map_some'] at ha
          injection ha with ha
          subst ha
          exact do_search_inv_ok loc h
  | consume name =>
      rw [apply_inv_op] at ha
      injection ha with ha
      subst ha
      exact consume_item_inv_ok s name h
  | dropOne target => exact manage_drop_inv_ok ha h
  | eatOne target =>
      rw [apply_inv_op] at ha
      injection ha with ha
      subst ha
      exact manage_eat_inv_ok s target h

lemma apply_inv_ops_ok (ops : List InvOp) :
    ∀ s s' : GameState, InvOK s.inventory → (∀ op ∈ ops, op_count_ok op) →
      apply_inv_ops s ops = some s' → InvOK s'.inventory := by
  induction ops with
  | nil =>
      intro s s' h _ ha
      rw [apply_inv_ops, List.foldlM_nil] at ha
      injection ha with ha
      subst ha
      exact h
  | cons op rest ih =>
      intro s s' h hops ha
      rw [apply_inv_ops, List.foldlM_cons] at ha
      cases hstep : apply_inv_op s op with
      | none => rw [hstep] at ha; simp at ha
      | some t =>
          rw [hstep] at ha
          simp only [Option.bind_eq_bind, Option.some_bind] at ha
          exact ih t s'
            (apply_inv_op_ok (hops op (List.mem_cons_self _ _)) h hstep)
            (fun o ho => hops o (List.mem_cons_of_mem _ ho)) ha

/-- C6: `requirements_met` is vacuously true for an empty or absent
requirement; for a requirement with a flags mapping it is true exactly when
every listed flag's current value equals its expected boolean, and a flag
absent from the game's flag mapping makes the requirement fail. -/
theorem claim6_requirements_met (g : List (String × Bool)) (r : Requirement) :
    (r.flags = [] → requirements_met g r = true)
    ∧ (requirements_met g r = true ↔ ∀ p ∈ r.flags, dictGet g p.1 = some p.2)
    ∧ (∀ p ∈ r.flags, dictGet g p.1 = none → requirements_met g r = false) := by
  have hmain : requirements_met g r = true
      ↔ ∀ p ∈ r.flags, dictGet g p.1 = some p.2 := by
    unfold requirements_met
    split
    · next hc =>
        rw [Bool.and_eq_true, List.isEmpty_iff] at hc
        simp [hc.1]
    · simp [List.all_eq_true]
  refine ⟨?_, hmain, ?_⟩
  · intro h
    exact hmain.mpr (by simp [h])
  · intro p hp hnone
    cases hmet : requirements_met g r with
    | false => rfl
    | true =>
        have := hmain.mp hmet p hp
        rw [hnone] at this
        exact absurd this (by simp)

/-- C6 witness: a listed flag absent from the flag mapping makes the
requirement fail. -/
theorem claim6_witness :
    requirements_met [("met", true)] ⟨[("door", true)], false⟩ = false :=
  (claim6_requirements_met [("met", true)] ⟨[("door", true)], false⟩).2.2
    ("door", true) (by decide) (by decide)

/-- C9: in `_decrement_timer` the energized status takes precedence over
starving: the timer is charged `move_time_cost`, which is the base cost
halved (floor division) whenever `energized` is set — even when
`health_bar ≤ 0` — and is doubled only when the player is starving and not
energized; otherwise it is the base cost. -/
theorem claim9_energized_precedence (s : GameState) (b : Int) :
    (decrement_timer s b).movement_timer
        = max 0 (s.movement_timer - move_time_cost s.energized s.health_bar b)
    ∧ (∀ h : Int, move_time_cost true h b = Int.fdiv b 2)
    ∧ (∀ h : Int, h ≤ 0 → move_time_cost false h b = b * 2)
    ∧ (∀ h : Int, 0 < h → move_time_cost false h b = b) := by
  refine ⟨?_, fun h => rfl, fun h hh => ?_, fun h hh => ?_⟩
  · unfold decrement_timer
    dsimp only
    split <;> rfl
  · unfold move_time_cost
    rw [if_neg (by simp), if_pos hh]
  · unfold move_time_cost
    rw [if_neg (by simp), if_neg (by omega)]

/-- C9 witness: concrete evaluations of the cost precedence. -/
theorem claim9_witness :
    (decrement_timer baseState 6).movement_timer
        = max 0 (120 - move_time_cost false 10 6)
    ∧ move_time_cost true (-1) 6 = Int.fdiv 6 2
    ∧ move_time_cost false 0 6 = 6 * 2
    ∧ move_time_cost false 10 6 = 6 := by
  obtain ⟨h1, h2, h3, h4⟩ := claim9_energized_precedence baseState 6
  exact ⟨h1, h2 (-1), h3 0 (by decide), h4 10 (by decide)⟩

/-- C10: `get_special_commands` lists a command exactly when it is a
`talk ` command for an NPC at the current location, or the command of an
interaction whose location set contains the current location id AND whose
`requires` predicate is currently satisfied — a not-yet-satisfiable
interaction is hidden from the valid-command list. -/
theorem claim10_special_commands (s : GameState) (c : String) :
    c ∈ get_special_commands s ↔
      (∃ npc, npc ∈ s.npcs ∧ npc.location = s.current_location_id
          ∧ c = "talk " ++ npc.name)
      ∨ (∃ inter, inter ∈ s.interactions ∧ c = inter.command
          ∧ s.current_location_id ∈ inter.locations
          ∧ requirements_met s.flags inter.requires = true) := by
  unfold get_special_commands
  simp only [List.mem_append, List.mem_map, List.mem_filter,
    Bool.and_eq_true, beq_iff_eq, List.contains, List.elem_iff]
  constructor
  · rintro (⟨n, ⟨hn, hl⟩, hc⟩ | ⟨i, ⟨hi, hloc, hreq⟩, hc⟩)
    · exact Or.inl ⟨n, hn, hl, hc.symm⟩
    · exact Or.inr ⟨i, hi, hc.symm, hloc, hreq⟩
  · rintro (⟨n, hn, hl, hc⟩ | ⟨i, hi, hc, hloc, hreq⟩)
    · exact Or.inl ⟨n, ⟨hn, hl⟩, hc.symm⟩
    · exact Or.inr ⟨i, ⟨hi, hloc, hreq⟩, hc.symm⟩

/-- C10 witness: the satisfied interaction's command is listed at its
location. -/
theorem claim10_witness : "open locker" ∈ get_special_commands lockerState :=
  (claim10_special_commands lockerState "open locker").mpr
    (Or.inr ⟨lockerInteraction, by decide, rfl, by decide, by decide⟩)

/-- C7: for an event list built from one initial command-less event plus
one event per command, `get_id_log` has length `n + 1` after `n` commands;
`add_event` sets the previous tail's `next_command` to the new event's
triggering command while appending the new event unchanged, so as soon as
the second event is appended the first event's `next_command` equals the
first command issued (not null). -/
theorem claim7_event_log (start : Event) (steps : List (Event × String)) :
    (get_id_log (build_session_log start steps)).length = steps.length + 1
    ∧ (∀ e c rest, steps = (e, c) :: rest →
        (build_session_log start steps).head?
          = some { start with next_command := some c })
    ∧ (∀ (l : List Event) (ev : Event) (cmd : Option String), l ≠ [] →
        ∃ front last0, l = front ++ [last0]
          ∧ add_event l ev cmd
              = front ++ [{ last0 with next_command := cmd }, ev]) := by
  refine ⟨?_, ?_, fun l ev cmd h => add_event_decomp l ev cmd h⟩
  · unfold get_id_log build_session_log
    rw [List.length_map]
    cases steps with
    | nil => rfl
    | cons st rest =>
        rw [List.foldl_cons]
        have h2 : 2 ≤ (add_event (add_event [] start none) st.1 (some st.2)).length := by
          rw [add_event_length, add_event_length]
          simp
        rw [(fold_add_events rest _ h2).1, add_event_length, add_event_length]
        simp
        omega
  · intro e c rest hsteps
    subst hsteps
    unfold build_session_log
    rw [List.foldl_cons]
    have hstart : add_event (add_event [] start none) e (some c)
        = [{ start with next_command := some c }, e] := rfl
    rw [hstart]
    have h2 : 2 ≤ ([{ start with next_command := some c }, e] : List Event).length := by
      simp
    rw [(fold_add_events rest _ h2).2]
    rfl

/-- C7 witness: a one-command session has a length-2 id log and the initial
event's outgoing command set to that command. -/
theorem claim7_witness :
    (get_id_log (build_session_log ⟨0, "dorm", none⟩ [(⟨1, "hall", none⟩, "go")])).length = 2
    ∧ (build_session_log ⟨0, "dorm", none⟩ [(⟨1, "hall", none⟩, "go")]).head?
        = some ⟨0, "dorm", some "go"⟩
    ∧ ∃ front last0, ([⟨0, "dorm", none⟩] : List Event) = front ++ [last0]
        ∧ add_event [⟨0, "dorm", none⟩] ⟨1, "hall", none⟩ (some "go")
            = front ++ [{ last0 with next_command := some "go" }, ⟨1, "hall", none⟩] := by
  obtain ⟨h1, h2, h3⟩ :=
    claim7_event_log ⟨0, "dorm", none⟩ [(⟨1, "hall", none⟩, "go")]
  exact ⟨h1, h2 _ _ _ rfl, h3 [⟨0, "dorm", none⟩] ⟨1, "hall", none⟩ (some "go") (by decide)⟩

/-- C1 counterexample: from a fresh state (timer 120, health 10), eleven
moves at base cost 5 are a reachable move sequence after which
`health_bar = -1 < 0` while the game is still ongoing — `_decrement_timer`
clamps only the timer, not `health_bar`. -/
theorem claim1_counterexample :
    (apply_move_seq baseState (List.replicate 11 ("go", 5))).map
        GameState.health_bar = some (-1)
    ∧ (apply_move_seq baseState (List.replicate 11 ("go", 5))).map
        GameState.ongoing = some true
    ∧ ((-1 : Int) < 0) :=
  ⟨by decide, by decide, by decide⟩

/-- C1 amended: after any sequence of move commands from a state with a
non-negative timer, `movement_timer` stays bounded below by zero (the
update clamps it with `max 0`); `health_bar` has no such floor. -/
theorem claim1_timer_floor (s : GameState) (ms : List (String × Int))
    (s' : GameState) (h0 : 0 ≤ s.movement_timer)
    (h : apply_move_seq s ms = some s') : 0 ≤ s'.movement_timer :=
  apply_move_seq_timer ms s s' h0 h

/-- C1 witness: one concrete move keeps the timer non-negative. -/
theorem claim1_witness : (0 : Int) ≤ moveOnceResult.movement_timer :=
  claim1_timer_floor baseState [("go", 5)] moveOnceResult (by decide) (by decide)

/-- C2 counterexample: with one gem already at the current location,
applying `spawn_item_here("gem")` twice leaves three items named "gem"
there, not one — the effect appends unconditionally, with no
deduplication. -/
theorem claim2_counterexample :
    loc_item_count_named gemHereState "gem" = 1
    ∧ (apply_effects gemHereState
        [Effect.spawn_item_here "gem", Effect.spawn_item_here "gem"]).map
          (fun p => loc_item_count_named p.1 "gem") = some 3
    ∧ (3 : Nat) ≠ 1 :=
  ⟨by decide, by decide, by decide⟩

/-- C2 amended: `spawn_item_here` appends the registry item to the current
location's item list unconditionally, so each application adds one more
copy regardless of whether an item of that name is already present. -/
theorem claim2_spawn_no_dedup (s : GameState) (nm : String) (item : Item)
    (loc : Location) (hit : dictGet s.items nm = some item)
    (hloc : getLocation s = some loc) :
    ∃ s', apply_effects s [Effect.spawn_item_here nm] = some (s', [])
      ∧ s'.locations = dictSet s.locations s.current_location_id
          { loc with items := loc.items ++ [item] }
      ∧ (item.name = nm →
          loc_item_count_named s' nm = loc_item_count_named s nm + 1) := by
  refine ⟨{ s with locations := dictSet s.locations s.current_location_id (
      { loc with items := loc.items ++ [item] }) }, ?_, rfl, ?_⟩
  · unfold apply_effects
    rw [hit, hloc]
    simp only [Option.bind_eq_bind, Option.some_bind]
    rfl
  · intro hname
    have h1 :
        getLocation { s with locations := dictSet s.locations s.current_location_id (
            { loc with items := loc.items ++ [item] }) }
          = some { loc with items := loc.items ++ [item] } := by
      unfold getLocation
      exact dictGet_dictSet_self _ _ _
    unfold loc_item_count_named
    rw [h1, hloc]
    dsimp only
    rw [List.filter_append]
    simp [hname]

/-- C2 witness: one spawn onto a gem-holding location adds a second gem. -/
theorem claim2_witness :
    dictGet gemHereState.items "gem" = some gemItem
    ∧ getLocation gemHereState = some { loc0 with items := [gemItem] }
    ∧ ∃ s', apply_effects gemHereState [Effect.spawn_item_here "gem"]
          = some (s', [])
        ∧ s'.locations = dictSet gemHereState.locations
            gemHereState.current_location_id (
            { loc0 with items := [gemItem, gemItem] })
        ∧ (gemItem.name = "gem" →
            loc_item_count_named s' "gem"
              = loc_item_count_named gemHereState "gem" + 1) :=
  ⟨by decide, by decide,
    claim2_spawn_no_dedup gemHereState "gem" gemItem
      { loc0 with items := [gemItem] } (by decide) (by decide)⟩

/-- C3 counterexample: adding the 5-point gem with count 2 raises the score
by 5 (the item's target points once per call), not by 2 × 5, while the
inventory count does rise by 2. -/
theorem claim3_counterexample :
    gemItem.target_points = 5
    ∧ (add_item_to_inventory baseState "gem" 2).map GameState.score = some 5
    ∧ (add_item_to_inventory baseState "gem" 2).map
        (fun s => inv_count s.inventory "gem") = some 2
    ∧ ¬ ((add_item_to_inventory baseState "gem" 2).map GameState.score
          = some (2 * 5)) :=
  ⟨by decide, by decide, by decide, by decide⟩

/-- C3 amended: for a registered item, `add_item_to_inventory(name, n)`
raises the inventory count at the item's lower-cased name by exactly `n`
(creating the entry at `n` if absent) and raises the score by the item's
target points exactly once per call, regardless of `n`. -/
theorem claim3_add_item (s : GameState) (nm : String) (item : Item) (n : Int)
    (hit : dictGet s.items nm = some item) :
    ∃ s', add_item_to_inventory s nm n = some s'
      ∧ s'.score = s.score + item.target_points
      ∧ inv_count s'.inventory (strLower item.name)
          = inv_count s.inventory (strLower item.name) + n := by
  unfold add_item_to_inventory
  rw [hit]
  simp only [Option.bind_eq_bind, Option.some_bind]
  split
  · next item0 c0 heq =>
      refine ⟨_, rfl, rfl, ?_⟩
      unfold inv_count
      rw [dictGet_dictSet_self,
        show dictGet s.inventory (strLower item.name) = some (item0, c0) from heq]
  · next heq =>
      refine ⟨_, rfl, rfl, ?_⟩
      unfold inv_count
      rw [dictGet_dictSet_self,
        show dictGet s.inventory (strLower item.name) = none from heq]
      simp

/-- C3 witness: the amended behavior at a concrete registered item. -/
theorem claim3_witness :
    dictGet baseState.items "gem" = some gemItem
    ∧ ∃ s', add_item_to_inventory baseState "gem" 2 = some s'
        ∧ s'.score = baseState.score + gemItem.target_points
        ∧ inv_count s'.inventory (strLower gemItem.name)
            = inv_count baseState.inventory (strLower gemItem.name) + 2 :=
  ⟨by decide, claim3_add_item baseState "gem" gemItem 2 (by decide)⟩

/-- C4 counterexample: an authored `add_item_to_inventory` effect with
count 0 (reachable through `apply_effects` on authored world data) creates
an inventory entry that is present with count 0, so the invariant as
stated fails on reachable states. -/
theorem claim4_counterexample :
    (apply_inv_ops baseState [InvOp.addEff "gem" 0]).map
        (fun s => dictGet s.inventory "gem") = some (some (gemItem, 0))
    ∧ (apply_inv_ops baseState [InvOp.addEff "gem" 0]).map inv_counts_ok
        = some false :=
  ⟨by decide, by decide⟩

/-- C4 amended: provided every authored add count is at least 1 (the Python
default), every inventory-mutating operation sequence preserves the
invariant that each inventory entry's count is at least 1: consume and the
manage drop/eat branches delete an entry whose count falls to zero instead
of keeping it. -/
theorem claim4_inventory_invariant (ops : List InvOp) (s s' : GameState)
    (hs : InvOK s.inventory) (hops : ∀ op ∈ ops, op_count_ok op)
    (ha : apply_inv_ops s ops = some s') : InvOK s'.inventory :=
  apply_inv_ops_ok ops s s' hs hops ha

/-- C4 witness: a concrete count-1 add keeps every count at least 1. -/
theorem claim4_witness : InvOK addGemResult.inventory :=
  claim4_inventory_invariant [InvOp.addEff "gem" 1] baseState addGemResult
    (by intro p hp; simp [baseState] at hp)
    (by intro op hop; simp at hop; subst hop; exact le_refl 1)
    (by decide)

/-- C5 counterexample: the NPC "bob" is at the current location, yet with
no satisfied dialogue line `run_talk` produces the `noOne` outcome — the
very "No one by that name is here." failure the claim reserves for an
absent NPC; there is no distinct "nothing new to say" fallback. -/
theorem claim5_counterexample :
    (∃ npc, npc ∈ bobState.npcs ∧ npc.location = bobState.current_location_id
      ∧ npc.name = "bob")
    ∧ run_talk bobState "bob" = some (bobState, TalkOutcome.noOne)
    ∧ talk_message TalkOutcome.noOne = "No one by that name is here." :=
  ⟨⟨bobNpc, by decide, by decide, rfl⟩, by decide, rfl⟩

/-- C5 amended: `run_talk` reports the "No one by that name is here."
failure in both failure modes: when no NPC with that name is at the current
location, and when the first such NPC has no dialogue line whose
requirement is satisfied; it emits no distinct fallback response. -/
theorem claim5_talk_failure_modes (s : GameState) (name : String) :
    run_talk s name = some (s, TalkOutcome.noOne)
      ↔ (find_npc s name = none
        ∨ ∃ npc, find_npc s name = some npc
          ∧ npc.dialogue.find?
              (fun l => requirements_met s.flags l.requires) = none) :=
  run_talk_from_noOne name s.npcs s

/-- C5 witness: the present-but-silent NPC yields the shared failure
outcome. -/
theorem claim5_witness :
    run_talk bobState "bob" = some (bobState, TalkOutcome.noOne) :=
  (claim5_talk_failure_modes bobState "bob").mpr
    (Or.inr ⟨bobNpc, by decide, by decide⟩)

/-- C8: for a fixed command sequence over a fixed world, the simulation's
visited-location-id log does not depend on the stream of movement time-cost
draws at all: any two runs — in particular two runs with the same seed, and
hence the same draw stream — produce exactly the same `get_id_log`. -/
theorem claim8_deterministic (s : GameState) (cmds : List String)
    (d1 d2 : List Int) : simulate s cmds d1 = simulate s cmds d2 := by
  unfold simulate
  cases h : getLocation s with
  | none => rfl
  | some loc =>
      simp only [Option.bind_eq_bind, Option.some_bind]
      rw [simulate_from_core cmds s s d1 d2 _ rfl]

end Adventure
